import Mathlib

/-!
Verification of the COI (certificate of insurance) orchestration pipeline:
a shallow embedding of the email-watcher, telegram-bot and coi-generator
request handlers (Firestore state, thread locks, approval records,
document-generation pipeline, classifier/extractor parsing) together with
theorems about the embedded operations.
-/

namespace LionBot

/-! ## Thread processing locks (email_watcher/main.py)

The lock collection is modelled as the list of document ids present in
the `email_processing_locks` Firestore collection.  `acquire_processing_lock`
re-reads the document and creates it only when absent; `release_processing_lock`
deletes it unconditionally. -/

def lockKey (threadId : String) : String := "thread_" ++ threadId

/-- Embedding of `acquire_processing_lock`: returns `false` when the lock
document already exists, otherwise atomically creates it and returns `true`. -/
def acquire_processing_lock (locks : List String) (threadId : String) :
    Bool × List String :=
  if lockKey threadId ∈ locks then (false, locks)
  else (true, lockKey threadId :: locks)

/-- Embedding of `release_processing_lock`: unconditional delete of the lock
document (a no-op when no such document exists). -/
def release_processing_lock (locks : List String) (threadId : String) :
    List String :=
  locks.erase (lockKey threadId)

/-- One store-level operation on the lock collection. -/
inductive LockOp
  | acq (threadId : String)
  | rel (threadId : String)
deriving DecidableEq

def lockStep (locks : List String) : LockOp → List String
  | .acq t => (acquire_processing_lock locks t).2
  | .rel t => release_processing_lock locks t

def lockRun (locks : List String) : List LockOp → List String
  | [] => locks
  | op :: ops => lockRun (lockStep locks op) ops

lemma lockRun_cons (locks : List String) (op : LockOp) (ops : List LockOp) :
    lockRun locks (op :: ops) = lockRun (lockStep locks op) ops := rfl

lemma mem_lockStep_of_mem {k : String} {locks : List String} (op : LockOp)
    (hk : k ∈ locks) (hop : ∀ t, op = .rel t → k ≠ lockKey t) :
    k ∈ lockStep locks op := by
  cases op with
  | acq t =>
      simp only [lockStep, acquire_processing_lock]
      split
      · exact hk
      · exact List.mem_cons_of_mem _ hk
  | rel t =>
      simp only [lockStep, release_processing_lock]
      exact List.mem_erase_of_ne (hop t rfl) |>.mpr hk

lemma mem_lockRun_of_mem {k : String} {locks : List String} (ops : List LockOp)
    (hk : k ∈ locks) (hops : ∀ op ∈ ops, ∀ t, op = LockOp.rel t → k ≠ lockKey t) :
    k ∈ lockRun locks ops := by
  induction ops generalizing locks with
  | nil => exact hk
  | cons op ops ih =>
      rw [lockRun_cons]
      exact ih (mem_lockStep_of_mem op hk (hops op (List.mem_cons_self op ops)))
        (fun o ho => hops o (List.mem_cons_of_mem _ ho))

lemma count_lockStep_le {k : String} {locks : List String} (op : LockOp)
    (h : locks.count k ≤ 1) : (lockStep locks op).count k ≤ 1 := by
  cases op with
  | acq t =>
      simp only [lockStep, acquire_processing_lock]
      split
      · exact h
      · rename_i habs
        rcases eq_or_ne k (lockKey t) with hkt | hkt
        · subst hkt
          rw [List.count_cons_self, List.count_eq_zero_of_not_mem habs]
        · rw [List.count_cons_of_ne hkt]
          exact h
  | rel t =>
      simp only [lockStep, release_processing_lock]
      exact le_trans ((locks.erase_sublist _).count_le k) h

lemma count_lockRun_le {k : String} {locks : List String} (ops : List LockOp)
    (h : locks.count k ≤ 1) : (lockRun locks ops).count k ≤ 1 := by
  induction ops generalizing locks with
  | nil => exact h
  | cons op ops ih => exact ih (count_lockStep_le op h)

lemma acquire_of_mem {locks : List String} {k : String}
    (h : lockKey k ∈ locks) : (acquire_processing_lock locks k).1 = false := by
  unfold acquire_processing_lock
  rw [if_pos h]

lemma lockKey_injective {a b : String} (h : lockKey a = lockKey b) : a = b := by
  have hd := congrArg String.data h
  simp only [lockKey, String.data_append] at hd
  exact String.ext (List.append_cancel_left hd)

/-- C2: `acquire_processing_lock` returns `true` exactly when no lock record
for the thread id existed; after a successful acquire, every further acquire
for that thread id returns `false` until a release for it occurs; and the
store never holds more than one lock record per thread id. -/
theorem C2_lock_mutual_exclusion (locks : List String) (threadId : String)
    (ops : List LockOp) :
    ((acquire_processing_lock locks threadId).1 = true ↔ lockKey threadId ∉ locks)
    ∧ ((acquire_processing_lock locks threadId).1 = true →
        (∀ op ∈ ops, op ≠ LockOp.rel threadId) →
        (acquire_processing_lock
          (lockRun (acquire_processing_lock locks threadId).2 ops) threadId).1 = false)
    ∧ (locks.count (lockKey threadId) ≤ 1 →
        (lockRun locks ops).count (lockKey threadId) ≤ 1) := by
  refine ⟨?_, ?_, ?_⟩
  · constructor
    · intro h hmem
      unfold acquire_processing_lock at h
      rw [if_pos hmem] at h
      simp at h
    · intro hmem
      unfold acquire_processing_lock
      rw [if_neg hmem]
  · intro hacq hops
    have hmem : lockKey threadId ∈ (acquire_processing_lock locks threadId).2 := by
      unfold acquire_processing_lock at hacq ⊢
      split at hacq
      · simp at hacq
      · rename_i hni
        rw [if_neg hni]
        exact List.mem_cons_self _ _
    have hrun : lockKey threadId ∈
        lockRun (acquire_processing_lock locks threadId).2 ops := by
      refine mem_lockRun_of_mem ops hmem ?_
      intro op hop t hrel hkey
      have ht : threadId = t := lockKey_injective hkey
      exact hops op hop (by rw [hrel, ht])
    exact acquire_of_mem hrun
  · intro h
    exact count_lockRun_le ops h

/-- Closed witness for `C2_lock_mutual_exclusion` at a concrete store. -/
theorem C2_lock_mutual_exclusion_witness :
    ((acquire_processing_lock [] "T1").1 = true ↔ lockKey "T1" ∉ ([] : List String))
    ∧ ((acquire_processing_lock [] "T1").1 = true →
        (∀ op ∈ [LockOp.acq "T2"], op ≠ LockOp.rel "T1") →
        (acquire_processing_lock
          (lockRun (acquire_processing_lock [] "T1").2 [LockOp.acq "T2"]) "T1").1 = false)
    ∧ (([] : List String).count (lockKey "T1") ≤ 1 →
        (lockRun [] [LockOp.acq "T2"]).count (lockKey "T1") ≤ 1) :=
  C2_lock_mutual_exclusion [] "T1" [LockOp.acq "T2"]

/-! ## Email watcher ingest handler (email_watcher/main.py)

The webhook handler is embedded as a function of the durable state
(locks, watermark, flow logs), the decoded webhook input, and an oracle
for the two outbound HTTP calls (classifier and telegram notification).
Uncaught Python exceptions are represented by `RouteOutcome.exceptionEscaped`:
the handler body is a `try`/`finally` with no `except` clause, so exceptions
propagate after the lock release. -/

structure MsgData where
  internalDate : Int
  subject : String
  sender : String
  bodyText : String
  toEmails : List String
  ccEmails : List String
  msgId : String
deriving DecidableEq, Repr

structure ThreadData where
  id : String
  messages : List MsgData
deriving DecidableEq, Repr

/-- Inner fold of `get_latest_thread`: walk the messages of one thread and
keep the thread holding the newest message seen so far. -/
def scanThreadMessages (t : ThreadData) (acc : Int × Option ThreadData) :
    Int × Option ThreadData :=
  t.messages.foldl
    (fun a m => if m.internalDate > a.1 then (m.internalDate, some t) else a) acc

/-- Embedding of `get_latest_thread`: `none` when the thread listing is empty
(or no message beats the initial timestamp of -1), else the thread containing
the globally newest message by internal date. -/
def get_latest_thread (threads : List ThreadData) : Option ThreadData :=
  if threads.isEmpty then none
  else (threads.foldl (fun acc t => scanThreadMessages t acc) (-1, none)).2

/-- Embedding of `max(messages, key=lambda m: int(m.get(...)))`: first maximal
message by internal date. -/
def maxMessage (m : MsgData) (ms : List MsgData) : MsgData :=
  ms.foldl (fun best x => if x.internalDate > best.internalDate then x else best) m

structure DetailFields where
  insuredInferred : Bool
  insuredName : String
  holderInferred : Bool
  holderName : String
  holderAddr1 : String
  holderAddr2 : String
  sendToEmail : String
deriving DecidableEq, Repr

/-- The parsed JSON body returned by the classifier call, as accessed by
`handle_email`: the `is_likely_coi_request` key and the detail keys may each
be absent (dictionary access then raises `KeyError`). -/
structure AnalysisData where
  isLikely : Option Bool
  details : Option DetailFields
deriving DecidableEq, Repr

inductive CallOutcome (α : Type)
  | raiseErr
  | ok (val : α)
deriving DecidableEq, Repr

/-- Oracle for the outbound HTTP calls made during one ingest invocation. -/
structure WatcherEnv where
  classify : CallOutcome AnalysisData
  telegramOk : Bool
deriving DecidableEq, Repr

structure LogEntry where
  step : String
  status : String
deriving DecidableEq, Repr

inductive HandleOutcome
  | escaped
  | done (notified : Bool)
deriving DecidableEq, Repr

/-- Embedding of `handle_email`: the classifier call is wrapped in
`try`/`except` (failure logs an error and returns), the telegram call is
wrapped in `try`/`except`, but the dictionary accesses on the analysis result
outside those blocks can raise (`HandleOutcome.escaped`). -/
def handle_email (env : WatcherEnv) : HandleOutcome × List LogEntry :=
  let baseLogs : List LogEntry := [⟨"email_received", "ok"⟩, ⟨"email_body", "ok"⟩]
  match env.classify with
  | .raiseErr => (.done false, baseLogs ++ [⟨"coi_analysis_failed", "error"⟩])
  | .ok a =>
    let logs1 := baseLogs ++ [⟨"coi_analysis_completed", "ok"⟩]
    match a.isLikely with
    | none => (.escaped, logs1)
    | some false => (.done false, logs1 ++ [⟨"not_coi_request", "ok"⟩])
    | some true =>
      match a.details with
      | none => (.escaped, logs1)
      | some _ =>
        if env.telegramOk then (.done true, logs1 ++ [⟨"telegram_notified", "ok"⟩])
        else (.done false, logs1 ++ [⟨"telegram_notify_failed", "error"⟩])

structure WatcherState where
  locks : List String
  lastProcessed : Option String
  logs : List LogEntry
deriving DecidableEq, Repr

inductive WebhookInput
  | noData
  | malformedData
  | payload (user : String) (threads : List ThreadData)
deriving DecidableEq, Repr

inductive RouteOutcome
  | response (code : Nat)
  | exceptionEscaped
deriving DecidableEq, Repr

def EMAILS : List String := ["tony@lioninsurance.us"]

structure WatcherResult where
  outcome : RouteOutcome
  state : WatcherState
  notified : Bool
deriving DecidableEq, Repr

/-- The `try ... finally` body of `email_watcher` after the lock was acquired
(`locks1` is the lock store including the new lock record). -/
def watcher_body (st : WatcherState) (locks1 : List String) (tid : String)
    (msgs : List MsgData) (env : WatcherEnv) : WatcherResult :=
  match msgs with
  | [] => ⟨.response 204, { st with locks := release_processing_lock locks1 tid }, false⟩
  | m :: ms =>
    let _msg := maxMessage m ms
    if st.lastProcessed = some tid then
      ⟨.response 204, { st with locks := release_processing_lock locks1 tid }, false⟩
    else
      match handle_email env with
      | (.escaped, hlogs) =>
        ⟨.exceptionEscaped,
          { st with locks := release_processing_lock locks1 tid,
                    logs := st.logs ++ hlogs }, false⟩
      | (.done notified, hlogs) =>
        ⟨.response 204,
          ⟨release_processing_lock locks1 tid, some tid, st.logs ++ hlogs⟩, notified⟩

/-- Embedding of the `email_watcher` webhook route. -/
def email_watcher (st : WatcherState) (input : WebhookInput) (env : WatcherEnv) :
    WatcherResult :=
  match input with
  | .noData => ⟨.response 204, st, false⟩
  | .malformedData => ⟨.exceptionEscaped, st, false⟩
  | .payload user threads =>
    if user ∈ EMAILS then
      match get_latest_thread threads with
      | none => ⟨.exceptionEscaped, st, false⟩
      | some t =>
        match acquire_processing_lock st.locks t.id with
        | (false, _) =>
          ⟨.response 204,
            { st with logs := st.logs ++ [⟨"processing_lock_held", "ok"⟩] }, false⟩
        | (true, locks1) => watcher_body st locks1 t.id t.messages env
    else ⟨.exceptionEscaped, st, false⟩

lemma acquire_eq_of_mem {locks : List String} {k : String}
    (h : lockKey k ∈ locks) : acquire_processing_lock locks k = (false, locks) := by
  unfold acquire_processing_lock
  rw [if_pos h]

lemma acquire_eq_of_not_mem {locks : List String} {k : String}
    (h : lockKey k ∉ locks) :
    acquire_processing_lock locks k = (true, lockKey k :: locks) := by
  unfold acquire_processing_lock
  rw [if_neg h]

lemma release_cons (locks : List String) (k : String) :
    release_processing_lock (lockKey k :: locks) k = locks := by
  unfold release_processing_lock
  exact List.erase_cons_head _ _

/-- A call environment in which the dictionary accesses performed by
`handle_email` outside its `try` blocks cannot raise: whenever the classifier
response parsed, it carries the `is_likely_coi_request` key, and — when that
key is true — the detail keys as well. -/
def envSafeB (env : WatcherEnv) : Bool :=
  match env.classify with
  | .raiseErr => true
  | .ok a =>
    match a.isLikely, a.details with
    | none, _ => false
    | some true, none => false
    | _, _ => true

lemma handle_email_done (env : WatcherEnv) (hsafe : envSafeB env = true) :
    ∃ notified logs, handle_email env = (HandleOutcome.done notified, logs) := by
  rcases env with ⟨c, tOk⟩
  cases c with
  | raiseErr => exact ⟨false, _, rfl⟩
  | ok a =>
    rcases a with ⟨lk, dt⟩
    cases lk with
    | none => simp [envSafeB] at hsafe
    | some b =>
      cases b with
      | false => exact ⟨false, _, rfl⟩
      | true =>
        cases dt with
        | none => simp [envSafeB] at hsafe
        | some d =>
          cases tOk with
          | false => exact ⟨false, _, rfl⟩
          | true => exact ⟨true, _, rfl⟩

lemma email_watcher_locked {st : WatcherState} {user : String}
    {threads : List ThreadData} {t : ThreadData} (env : WatcherEnv)
    (huser : user ∈ EMAILS) (ht : get_latest_thread threads = some t)
    (hlock : lockKey t.id ∈ st.locks) :
    email_watcher st (.payload user threads) env =
      ⟨.response 204,
        { st with logs := st.logs ++ [⟨"processing_lock_held", "ok"⟩] }, false⟩ := by
  simp only [email_watcher]
  rw [if_pos huser, ht]
  simp only [acquire_eq_of_mem hlock]

lemma email_watcher_not_locked {st : WatcherState} {user : String}
    {threads : List ThreadData} {t : ThreadData} (env : WatcherEnv)
    (huser : user ∈ EMAILS) (ht : get_latest_thread threads = some t)
    (hlock : lockKey t.id ∉ st.locks) :
    email_watcher st (.payload user threads) env =
      watcher_body st (lockKey t.id :: st.locks) t.id t.messages env := by
  simp only [email_watcher]
  rw [if_pos huser, ht]
  simp only [acquire_eq_of_not_mem hlock]

lemma watcher_body_run {st : WatcherState} {tid : String} (locks1 : List String)
    (m : MsgData) (ms : List MsgData) (env : WatcherEnv)
    (hwm : ¬ st.lastProcessed = some tid) :
    watcher_body st locks1 tid (m :: ms) env =
      match handle_email env with
      | (.escaped, hlogs) =>
        ⟨.exceptionEscaped,
          { st with locks := release_processing_lock locks1 tid,
                    logs := st.logs ++ hlogs }, false⟩
      | (.done notified, hlogs) =>
        ⟨.response 204,
          ⟨release_processing_lock locks1 tid, some tid, st.logs ++ hlogs⟩,
          notified⟩ := by
  unfold watcher_body
  rw [if_neg hwm]

/-- C1 counterexample: an ingest run in which the classifier call fails
(`CallOutcome.raiseErr`): `handle_email` catches the failure and returns, and
the handler still advances the Processing Watermark to the thread id,
contradicting the claim that a classifier failure leaves the watermark
untouched. -/
theorem C1_classifier_failure_still_advances_watermark :
    (email_watcher ⟨[], none, []⟩
        (WebhookInput.payload "tony@lioninsurance.us"
          [⟨"T1", [⟨1, "s", "from", "body", [], [], "m1"⟩]⟩])
        ⟨CallOutcome.raiseErr, true⟩).state.lastProcessed = some "T1" := by
  decide

/-- C1 (amended): the Processing Watermark is advanced exactly when
`handle_email` returns without an uncaught exception — in particular it is
still advanced when the classifier call fails, since that failure is caught
inside `handle_email`; it is left unchanged when an exception escapes the
handler body; and the lock acquired for the thread is always released. -/
theorem C1_watermark_update_rule (st : WatcherState) (user : String)
    (threads : List ThreadData) (t : ThreadData) (env : WatcherEnv)
    (huser : user ∈ EMAILS) (ht : get_latest_thread threads = some t)
    (hlock : lockKey t.id ∉ st.locks) (hmsgs : t.messages ≠ [])
    (hwm : st.lastProcessed ≠ some t.id) :
    (∀ notified, (handle_email env).1 = HandleOutcome.done notified →
        (email_watcher st (.payload user threads) env).state.lastProcessed = some t.id)
    ∧ ((handle_email env).1 = HandleOutcome.escaped →
        (email_watcher st (.payload user threads) env).state.lastProcessed
          = st.lastProcessed)
    ∧ lockKey t.id ∉ (email_watcher st (.payload user threads) env).state.locks := by
  obtain ⟨m, ms, hm⟩ := List.exists_cons_of_ne_nil hmsgs
  have hew := email_watcher_not_locked env huser ht hlock
  rw [hm] at hew
  rw [hew, watcher_body_run (lockKey t.id :: st.locks) m ms env hwm]
  rcases hhe : handle_email env with ⟨o, lg⟩
  cases o with
  | escaped =>
    refine ⟨?_, ?_, ?_⟩
    · intro n hn
      simp at hn
    · intro _
      rfl
    · rw [release_cons]
      exact hlock
  | done n =>
    refine ⟨?_, ?_, ?_⟩
    · intro n' _
      rfl
    · intro hesc
      simp at hesc
    · rw [release_cons]
      exact hlock

/-- Closed witness for `C1_watermark_update_rule`: a run whose classifier call
fails still advances the watermark to the thread id. -/
theorem C1_watermark_update_rule_witness :
    ("tony@lioninsurance.us" ∈ EMAILS)
    ∧ ((∀ notified,
          (handle_email ⟨CallOutcome.raiseErr, true⟩).1 = HandleOutcome.done notified →
          (email_watcher ⟨[], none, []⟩
            (WebhookInput.payload "tony@lioninsurance.us"
              [⟨"T1", [⟨1, "s", "from", "body", [], [], "m1"⟩]⟩])
            ⟨CallOutcome.raiseErr, true⟩).state.lastProcessed = some "T1")
      ∧ ((handle_email ⟨CallOutcome.raiseErr, true⟩).1 = HandleOutcome.escaped →
          (email_watcher ⟨[], none, []⟩
            (WebhookInput.payload "tony@lioninsurance.us"
              [⟨"T1", [⟨1, "s", "from", "body", [], [], "m1"⟩]⟩])
            ⟨CallOutcome.raiseErr, true⟩).state.lastProcessed = none)
      ∧ lockKey "T1" ∉
          (email_watcher ⟨[], none, []⟩
            (WebhookInput.payload "tony@lioninsurance.us"
              [⟨"T1", [⟨1, "s", "from", "body", [], [], "m1"⟩]⟩])
            ⟨CallOutcome.raiseErr, true⟩).state.locks) :=
  ⟨by decide,
    C1_watermark_update_rule ⟨[], none, []⟩ "tony@lioninsurance.us"
      [⟨"T1", [⟨1, "s", "from", "body", [], [], "m1"⟩]⟩]
      ⟨"T1", [⟨1, "s", "from", "body", [], [], "m1"⟩]⟩
      ⟨CallOutcome.raiseErr, true⟩
      (by decide) (by decide) (by decide) (by decide) (by decide)⟩

/-- C8 counterexample: a webhook for the known mailbox user whose thread
listing is empty — `get_latest_thread` returns None and the subscript
`thread['id']` raises; the handler body is `try`/`finally` with no `except`
clause, so the exception escapes to the caller instead of a benign
acknowledgment. -/
theorem C8_exception_escapes_on_missing_thread :
    (email_watcher ⟨[], none, []⟩
        (WebhookInput.payload "tony@lioninsurance.us" [])
        ⟨CallOutcome.raiseErr, true⟩).outcome = RouteOutcome.exceptionEscaped := by
  decide

/-- C8 (amended): once a thread has been resolved for a known mailbox user,
and the classifier response (when it parses) carries the keys `handle_email`
accesses, the handler always returns the benign 204 acknowledgment — failures
of the classifier call and of the telegram notification are caught and
absorbed; the lock store is restored (any lock acquired is released); and a
classifier-call failure on a fully processed run is logged as an error event.
Exceptions raised elsewhere (no resolvable thread, unknown user, malformed
payload, missing keys in the parsed analysis) do escape the handler. -/
theorem C8_failures_absorbed (st : WatcherState) (user : String)
    (threads : List ThreadData) (t : ThreadData) (env : WatcherEnv)
    (huser : user ∈ EMAILS) (ht : get_latest_thread threads = some t)
    (hsafe : envSafeB env = true) :
    (email_watcher st (.payload user threads) env).outcome = RouteOutcome.response 204
    ∧ (email_watcher st (.payload user threads) env).state.locks = st.locks
    ∧ (env.classify = CallOutcome.raiseErr → lockKey t.id ∉ st.locks →
        st.lastProcessed ≠ some t.id → t.messages ≠ [] →
        LogEntry.mk "coi_analysis_failed" "error"
          ∈ (email_watcher st (.payload user threads) env).state.logs) := by
  by_cases hlock : lockKey t.id ∈ st.locks
  · rw [email_watcher_locked env huser ht hlock]
    exact ⟨rfl, rfl, fun _ hnl _ _ => absurd hlock hnl⟩
  · rw [email_watcher_not_locked env huser ht hlock]
    rcases hmsg : t.messages with _ | ⟨m, ms⟩
    · refine ⟨rfl, ?_, ?_⟩
      · simp only [watcher_body, release_cons]
      · intro _ _ _ hne
        exact absurd rfl hne
    · by_cases hwm : st.lastProcessed = some t.id
      · have hbody : watcher_body st (lockKey t.id :: st.locks) t.id (m :: ms) env =
            ⟨.response 204,
              { st with locks :=
                  release_processing_lock (lockKey t.id :: st.locks) t.id }, false⟩ := by
          unfold watcher_body
          rw [if_pos hwm]
        rw [hbody]
        refine ⟨rfl, ?_, ?_⟩
        · simp only [release_cons]
        · intro _ _ hwm' _
          exact absurd hwm hwm'
      · obtain ⟨n, lg, hde⟩ := handle_email_done env hsafe
        rw [watcher_body_run (lockKey t.id :: st.locks) m ms env hwm, hde]
        refine ⟨rfl, ?_, ?_⟩
        · simp only [release_cons]
        · intro hcls _ _ _
          have hlg : lg = [⟨"email_received", "ok"⟩, ⟨"email_body", "ok"⟩,
              ⟨"coi_analysis_failed", "error"⟩] := by
            rcases env with ⟨c, tOk⟩
            simp only at hcls
            subst hcls
            simp [handle_email] at hde
            exact hde.2.symm
          rw [hlg]
          simp

/-- Closed witness for `C8_failures_absorbed`: a classifier failure on a fresh
thread is absorbed into a 204 response, the lock store is restored, and the
failure is logged. -/
theorem C8_failures_absorbed_witness :
    ("tony@lioninsurance.us" ∈ EMAILS)
    ∧ ((email_watcher ⟨[], none, []⟩
          (WebhookInput.payload "tony@lioninsurance.us"
            [⟨"T1", [⟨1, "s", "from", "body", [], [], "m1"⟩]⟩])
          ⟨CallOutcome.raiseErr, true⟩).outcome = RouteOutcome.response 204
      ∧ (email_watcher ⟨[], none, []⟩
          (WebhookInput.payload "tony@lioninsurance.us"
            [⟨"T1", [⟨1, "s", "from", "body", [], [], "m1"⟩]⟩])
          ⟨CallOutcome.raiseErr, true⟩).state.locks = ([] : List String)
      ∧ ((⟨CallOutcome.raiseErr, true⟩ : WatcherEnv).classify = CallOutcome.raiseErr →
          lockKey "T1" ∉ ([] : List String) →
          (none : Option String) ≠ some "T1" →
          ([⟨1, "s", "from", "body", [], [], "m1"⟩] : List MsgData) ≠ [] →
          LogEntry.mk "coi_analysis_failed" "error"
            ∈ (email_watcher ⟨[], none, []⟩
                (WebhookInput.payload "tony@lioninsurance.us"
                  [⟨"T1", [⟨1, "s", "from", "body", [], [], "m1"⟩]⟩])
                ⟨CallOutcome.raiseErr, true⟩).state.logs)) :=
  ⟨by decide,
    C8_failures_absorbed ⟨[], none, []⟩ "tony@lioninsurance.us"
      [⟨"T1", [⟨1, "s", "from", "body", [], [], "m1"⟩]⟩]
      ⟨"T1", [⟨1, "s", "from", "body", [], [], "m1"⟩]⟩
      ⟨CallOutcome.raiseErr, true⟩
      (by decide) (by decide) (by decide)⟩

/-! ## Telegram bot approval gate (telegram_bot/main.py)

The `pending_requests` Firestore collection is modelled as an association
list from document id to approval record.  `handle_callback` embeds the
button-click handler; its observable effects are the updated store, the chat
messages sent, and the HTTP posts made to the coi-generator service. -/

structure ApprovalRecord where
  threadId : String
  subject : String
  chatId : Int
  status : Option String
  insuredInferred : Bool
  insuredName : String
  holderInferred : Bool
  holderName : String
  holderAddr1 : String
  holderAddr2 : String
  sendToEmail : String
  toEmails : List String
  ccEmails : List String
  lastMessageId : String
  resolvedAt : Option String
  timestamp : String
deriving DecidableEq, Repr

/-- The JSON body posted to the coi-generator service on an accept decision. -/
structure GenPayload where
  action : String
  insuredInferred : Bool
  insuredName : String
  holderInferred : Bool
  holderName : String
  holderAddr1 : String
  holderAddr2 : String
  sendToEmail : String
  toEmails : List String
  ccEmails : List String
  lastMessageId : String
  threadId : Option String
  subjectText : String
  bodyText : String
deriving DecidableEq, Repr

/-- Split a character list at the first colon, python `s.split(":", 1)`. -/
def splitFirstColon : List Char → Option (List Char × List Char)
  | [] => none
  | c :: cs =>
    if c = ':' then some ([], cs)
    else (splitFirstColon cs).map (fun p => (c :: p.1, p.2))

/-- Parse the callback token into `(action, thread_id)`: python
`callback_data.split(":", 1)` when a colon is present, else
`(callback_data, None)`. -/
def parseCallback (s : String) : String × Option String :=
  match splitFirstColon s.data with
  | none => (s, none)
  | some (a, b) => (⟨a⟩, some ⟨b⟩)

/-- Python string interpolation of a possibly-None thread id. -/
def tidDisplay : Option String → String
  | some s => s
  | none => "None"

def callbackDocId (cb : String) : String :=
  "msg_" ++ tidDisplay (parseCallback cb).2

/-- Python truthiness of the stored `status` value (None and the empty
string are falsy). -/
def truthy : Option String → Bool
  | none => false
  | some s => !(s == "")

/-- `doc_ref.update({"status": ..., "resolved_at": ...})`: merge-update of one
document, leaving every other field and every other document unchanged. -/
def setResolved (st : List (String × ApprovalRecord)) (k newStatus now : String) :
    List (String × ApprovalRecord) :=
  st.map (fun p =>
    if p.1 = k then (p.1, { p.2 with status := some newStatus, resolvedAt := some now })
    else p)

def mkGenPayload (r : ApprovalRecord) (tidOpt : Option String) : GenPayload :=
  { action := "generate_coi"
  , insuredInferred := r.insuredInferred
  , insuredName := r.insuredName
  , holderInferred := r.holderInferred
  , holderName := r.holderName
  , holderAddr1 := r.holderAddr1
  , holderAddr2 := r.holderAddr2
  , sendToEmail := r.sendToEmail
  , toEmails := r.toEmails
  , ccEmails := r.ccEmails
  , lastMessageId := r.lastMessageId
  , threadId := tidOpt
  , subjectText := "Re: " ++ (if r.subject == "" then "Certificate Request" else r.subject)
  , bodyText := "Hello,\nPlease see the COI attached." }

structure CallbackOut where
  store : List (String × ApprovalRecord)
  messages : List (Int × String)
  posts : List GenPayload
deriving DecidableEq, Repr

/-- Embedding of `handle_callback`: missing record and already-resolved
record are read-only short circuits; a `send` decision updates the status to
`sent` and posts a `generate_coi` payload; a `nosend` decision updates the
status to `skipped`. -/
def handle_callback (st : List (String × ApprovalRecord)) (callbackData : String)
    (fromChat : Int) (now : String) : CallbackOut :=
  match st.lookup (callbackDocId callbackData) with
  | none => ⟨st, [(fromChat, "Request is already processed")], []⟩
  | some r =>
    if truthy r.status && !(r.status == some "pending") then
      ⟨st, [(fromChat, "ℹ️ This request is already resolved (status: *"
              ++ (r.status.getD "None") ++ "*).")], []⟩
    else if (parseCallback callbackData).1 == "send" then
      ⟨setResolved st (callbackDocId callbackData) "sent" now,
        [(fromChat, "✅ Sending COI for:\n*"
            ++ (if r.subject == "" then tidDisplay (parseCallback callbackData).2
                else r.subject) ++ "*")],
        [mkGenPayload r (parseCallback callbackData).2]⟩
    else if (parseCallback callbackData).1 == "nosend" then
      ⟨setResolved st (callbackDocId callbackData) "skipped" now,
        [(fromChat, "🚫 Skipped COI for:\n*"
            ++ (if r.subject == "" then tidDisplay (parseCallback callbackData).2
                else r.subject) ++ "*")],
        []⟩
    else ⟨st, [], []⟩

/-- Embedding of the `coi_generator` route dispatch (its only handled
action). -/
def coi_generator_handles (action : String) : Bool :=
  action == "analyze_for_coi_request"

lemma lookup_setResolved_self (st : List (String × ApprovalRecord))
    (k s now : String) :
    (setResolved st k s now).lookup k
      = (st.lookup k).map
          (fun r => { r with status := some s, resolvedAt := some now }) := by
  induction st with
  | nil => rfl
  | cons p tail ih =>
    rcases p with ⟨k₂, r⟩
    dsimp only [setResolved, List.map_cons]
    by_cases h : k₂ = k
    · subst h
      rw [if_pos rfl]
      simp [List.lookup]
    · rw [if_neg h]
      have hbeq : (k == k₂) = false := by simpa using Ne.symm h
      simp only [List.lookup, hbeq]
      simpa [setResolved] using ih

lemma handle_callback_none {st : List (String × ApprovalRecord)} {cb : String}
    (chat : Int) (now : String) (h : st.lookup (callbackDocId cb) = none) :
    handle_callback st cb chat now
      = ⟨st, [(chat, "Request is already processed")], []⟩ := by
  unfold handle_callback
  rw [h]

lemma handle_callback_terminal {st : List (String × ApprovalRecord)} {cb : String}
    {r : ApprovalRecord} (chat : Int) (now : String)
    (h : st.lookup (callbackDocId cb) = some r)
    (hterm : (truthy r.status && !(r.status == some "pending")) = true) :
    handle_callback st cb chat now
      = ⟨st, [(chat, "ℹ️ This request is already resolved (status: *"
              ++ (r.status.getD "None") ++ "*).")], []⟩ := by
  unfold handle_callback
  rw [h]
  simp only [hterm, if_pos]

lemma handle_callback_send {st : List (String × ApprovalRecord)} {cb : String}
    {r : ApprovalRecord} (chat : Int) (now : String)
    (h : st.lookup (callbackDocId cb) = some r)
    (hterm : (truthy r.status && !(r.status == some "pending")) = false)
    (ha : (parseCallback cb).1 = "send") :
    handle_callback st cb chat now
      = ⟨setResolved st (callbackDocId cb) "sent" now,
          [(chat, "✅ Sending COI for:\n*"
              ++ (if r.subject == "" then tidDisplay (parseCallback cb).2
                  else r.subject) ++ "*")],
          [mkGenPayload r (parseCallback cb).2]⟩ := by
  have hc1 : ¬ ((truthy r.status && !(r.status == some "pending")) = true) := by
    simp [hterm]
  have hc2 : ((parseCallback cb).1 == "send") = true := by simp [ha]
  unfold handle_callback
  rw [h]
  dsimp only
  rw [if_neg hc1, if_pos hc2]

lemma handle_callback_nosend {st : List (String × ApprovalRecord)} {cb : String}
    {r : ApprovalRecord} (chat : Int) (now : String)
    (h : st.lookup (callbackDocId cb) = some r)
    (hterm : (truthy r.status && !(r.status == some "pending")) = false)
    (ha : (parseCallback cb).1 = "nosend") :
    handle_callback st cb chat now
      = ⟨setResolved st (callbackDocId cb) "skipped" now,
          [(chat, "🚫 Skipped COI for:\n*"
              ++ (if r.subject == "" then tidDisplay (parseCallback cb).2
                  else r.subject) ++ "*")],
          []⟩ := by
  have hc1 : ¬ ((truthy r.status && !(r.status == some "pending")) = true) := by
    simp [hterm]
  have hc2 : ¬ (((parseCallback cb).1 == "send") = true) := by simp [ha]
  have hc3 : ((parseCallback cb).1 == "nosend") = true := by simp [ha]
  unfold handle_callback
  rw [h]
  dsimp only
  rw [if_neg hc1, if_neg hc2, if_pos hc3]

lemma handle_callback_other {st : List (String × ApprovalRecord)} {cb : String}
    {r : ApprovalRecord} (chat : Int) (now : String)
    (h : st.lookup (callbackDocId cb) = some r)
    (hterm : (truthy r.status && !(r.status == some "pending")) = false)
    (hs : ¬ (parseCallback cb).1 = "send") (hn : ¬ (parseCallback cb).1 = "nosend") :
    handle_callback st cb chat now = ⟨st, [], []⟩ := by
  have hc1 : ¬ ((truthy r.status && !(r.status == some "pending")) = true) := by
    simp [hterm]
  have hc2 : ¬ (((parseCallback cb).1 == "send") = true) := by simp [hs]
  have hc3 : ¬ (((parseCallback cb).1 == "nosend") = true) := by simp [hn]
  unfold handle_callback
  rw [h]
  dsimp only
  rw [if_neg hc1, if_neg hc2, if_neg hc3]

lemma terminal_cond_of_resolved {r : ApprovalRecord}
    (h : r.status = some "sent" ∨ r.status = some "skipped") :
    (truthy r.status && !(r.status == some "pending")) = true := by
  rcases h with h | h <;> rw [h] <;> decide

lemma pendingish_of_cond_false {r : ApprovalRecord}
    (h : (truthy r.status && !(r.status == some "pending")) = false) :
    truthy r.status = false ∨ r.status = some "pending" := by
  cases ht : truthy r.status with
  | false => exact Or.inl rfl
  | true =>
    right
    rw [ht] at h
    simpa using h

/-- C3: resolving a missing record or an already-terminal record changes no
state and triggers no Delivery post; two sequential resolutions leave the
same store as one; and the store changes only by a pending (or
falsy-status) record transitioning to `sent` or `skipped`. -/
theorem C3_resolve_terminal_noop_idempotent
    (st : List (String × ApprovalRecord)) (cb : String)
    (chat1 chat2 : Int) (t1 t2 : String) :
    (st.lookup (callbackDocId cb) = none →
        (handle_callback st cb chat1 t1).store = st
        ∧ (handle_callback st cb chat1 t1).posts = [])
    ∧ (∀ r, st.lookup (callbackDocId cb) = some r →
        (r.status = some "sent" ∨ r.status = some "skipped") →
        (handle_callback st cb chat1 t1).store = st
        ∧ (handle_callback st cb chat1 t1).posts = [])
    ∧ ((handle_callback (handle_callback st cb chat1 t1).store cb chat2 t2).store
        = (handle_callback st cb chat1 t1).store)
    ∧ ((handle_callback st cb chat1 t1).store ≠ st →
        ∃ r, st.lookup (callbackDocId cb) = some r
          ∧ (truthy r.status = false ∨ r.status = some "pending")
          ∧ ((handle_callback st cb chat1 t1).store
                = setResolved st (callbackDocId cb) "sent" t1
              ∨ (handle_callback st cb chat1 t1).store
                = setResolved st (callbackDocId cb) "skipped" t1)) := by
  rcases hlook : st.lookup (callbackDocId cb) with _ | r
  · have h1 := @handle_callback_none st cb chat1 t1 hlook
    refine ⟨fun _ => ⟨by rw [h1], by rw [h1]⟩, ?_, ?_, ?_⟩
    · intro r' hr' _
      exact absurd hr' (by simp)
    · rw [h1]
      show (handle_callback st cb chat2 t2).store = st
      rw [handle_callback_none chat2 t2 hlook]
    · intro hne
      rw [h1] at hne
      exact absurd rfl hne
  · by_cases hterm : (truthy r.status && !(r.status == some "pending")) = true
    · have h1 := handle_callback_terminal chat1 t1 hlook hterm
      refine ⟨?_, ?_, ?_, ?_⟩
      · intro hnone
        exact absurd hnone (by simp)
      · intro r' _ _
        rw [h1]
        exact ⟨rfl, rfl⟩
      · rw [h1]
        show (handle_callback st cb chat2 t2).store = st
        rw [handle_callback_terminal chat2 t2 hlook hterm]
      · intro hne
        rw [h1] at hne
        exact absurd rfl hne
    · have hterm' : (truthy r.status && !(r.status == some "pending")) = false :=
        Bool.eq_false_iff.mpr hterm
      have hpend := pendingish_of_cond_false hterm'
      have hconj2 : ∀ r', some r = some r' →
          (r'.status = some "sent" ∨ r'.status = some "skipped") → False := by
        intro r' hr' hstat
        obtain rfl : r = r' := by simpa using hr'
        rw [terminal_cond_of_resolved hstat] at hterm'
        simp at hterm'
      by_cases hsend : (parseCallback cb).1 = "send"
      · have h1 := handle_callback_send chat1 t1 hlook hterm' hsend
        refine ⟨fun hnone => absurd hnone (by simp),
          fun r' hr' hstat => absurd (hconj2 r' hr' hstat) (by simp), ?_, ?_⟩
        · rw [h1]
          have hlook2 : (setResolved st (callbackDocId cb) "sent" t1).lookup
                (callbackDocId cb)
              = some { r with status := some "sent", resolvedAt := some t1 } := by
            rw [lookup_setResolved_self, hlook]
            rfl
          rw [handle_callback_terminal chat2 t2 hlook2
            (terminal_cond_of_resolved (Or.inl rfl))]
        · intro _
          exact ⟨r, rfl, hpend, Or.inl (by rw [h1])⟩
      · by_cases hnosend : (parseCallback cb).1 = "nosend"
        · have h1 := handle_callback_nosend chat1 t1 hlook hterm' hnosend
          refine ⟨fun hnone => absurd hnone (by simp),
            fun r' hr' hstat => absurd (hconj2 r' hr' hstat) (by simp), ?_, ?_⟩
          · rw [h1]
            have hlook2 : (setResolved st (callbackDocId cb) "skipped" t1).lookup
                  (callbackDocId cb)
                = some { r with status := some "skipped", resolvedAt := some t1 } := by
              rw [lookup_setResolved_self, hlook]
              rfl
            rw [handle_callback_terminal chat2 t2 hlook2
              (terminal_cond_of_resolved (Or.inr rfl))]
          · intro _
            exact ⟨r, rfl, hpend, Or.inr (by rw [h1])⟩
        · have h1 := handle_callback_other chat1 t1 hlook hterm' hsend hnosend
          refine ⟨fun hnone => absurd hnone (by simp),
            fun r' hr' hstat => absurd (hconj2 r' hr' hstat) (by simp), ?_, ?_⟩
          · rw [h1]
            show (handle_callback st cb chat2 t2).store = st
            rw [handle_callback_other chat2 t2 hlook hterm' hsend hnosend]
          · intro hne
            rw [h1] at hne
            exact absurd rfl hne

/-- A concrete pending approval record used for concrete evaluations. -/
def sampleRecord : ApprovalRecord :=
  { threadId := "T1", subject := "Need COI", chatId := 828259521
  , status := some "pending", insuredInferred := true, insuredName := "ACME LLC"
  , holderInferred := true, holderName := "Holder Inc", holderAddr1 := "1 Main St"
  , holderAddr2 := "Dallas, TX 75206", sendToEmail := "a@b.com"
  , toEmails := ["a@b.com"], ccEmails := ["c@d.com"], lastMessageId := "mid1"
  , resolvedAt := none, timestamp := "ts" }

def sampleSent : ApprovalRecord := { sampleRecord with status := some "sent" }

/-- Closed witness for `C3_resolve_terminal_noop_idempotent`: a duplicate
accept press on an already-sent record changes nothing and posts nothing. -/
theorem C3_resolve_terminal_noop_idempotent_witness :
    (handle_callback [("msg_T1", sampleSent)] "send:T1" 1 "t1").store
        = [("msg_T1", sampleSent)]
    ∧ (handle_callback [("msg_T1", sampleSent)] "send:T1" 1 "t1").posts = [] :=
  (C3_resolve_terminal_noop_idempotent [("msg_T1", sampleSent)] "send:T1" 1 2
      "t1" "t2").2.1 sampleSent (by decide) (Or.inl rfl)

/-- C4: accepting a pending approval record updates its status to `sent` and
issues exactly one post built from the stored inferred fields, recorded to/cc
lists and message id — but the posted action is `generate_coi`, which the
`coi_generator` route dispatch does not handle (it only dispatches
`analyze_for_coi_request`), so no Document Generator run and no Delivery
attempt ever follow; a reject decision transitions the status to `skipped`
with no post.  This evaluates the code at the failing input. -/
theorem C4_accept_posts_unhandled_action :
    (handle_callback [("msg_T1", sampleRecord)] "send:T1" 828259521 "t1").posts
        = [mkGenPayload sampleRecord (some "T1")]
    ∧ (mkGenPayload sampleRecord (some "T1")).action = "generate_coi"
    ∧ coi_generator_handles "generate_coi" = false
    ∧ (((handle_callback [("msg_T1", sampleRecord)] "send:T1" 828259521
          "t1").store.lookup "msg_T1").map (fun r => r.status))
        = some (some "sent")
    ∧ (handle_callback [("msg_T1", sampleRecord)] "nosend:T1" 828259521
          "t1").posts = []
    ∧ (((handle_callback [("msg_T1", sampleRecord)] "nosend:T1" 828259521
          "t1").store.lookup "msg_T1").map (fun r => r.status))
        = some (some "skipped") := by
  decide

/-! ## COI generator: PDF form fill (coi_generator/main.py, fill_coi)

A PDF form is modelled as an association list from field name to field
value; `fill_coi` updates the four named fields of the main certificate and
writes the result back in place.  The completion-date value is written by the
source as an f-string with eight leading spaces before the `%m/%d/%Y` date. -/

def pad2 (n : Nat) : String := if n < 10 then "0" ++ toString n else toString n

/-- `date.today().strftime("%m/%d/%Y")`. -/
def formatDateMMDDYYYY (m d y : Nat) : String :=
  pad2 m ++ "/" ++ pad2 d ++ "/" ++ toString y

/-- The exact value written into `Form_CompletionDate_A`: the f-string
places eight spaces before the formatted date. -/
def completionDateValue (m d y : Nat) : String :=
  "        " ++ formatDateMMDDYYYY m d y

/-- `update_page_form_field_values` for one field: every pair whose name
matches is overwritten, others are untouched. -/
def updateField (form : List (String × String)) (k v : String) :
    List (String × String) :=
  form.map (fun p => if p.1 = k then (k, v) else p)

/-- The field updates performed by `fill_coi` for holder
`(full name, address line 1, address line 2)` on date `m/d/y`. -/
def fill_coi_fields (form : List (String × String))
    (holder : String × String × String) (m d y : Nat) : List (String × String) :=
  updateField (updateField (updateField (updateField form
    "Form_CompletionDate_A" (completionDateValue m d y))
    "CertificateHolder_FullName_A" holder.1)
    "CertificateHolder_MailingAddress_LineOne_A" holder.2.1)
    "CertificateHolder_MailingAddress_LineTwo_A" holder.2.2

lemma lookup_updateField_self (form : List (String × String)) (k v : String) :
    (updateField form k v).lookup k = (form.lookup k).map (fun _ => v) := by
  induction form with
  | nil => rfl
  | cons p tail ih =>
    rcases p with ⟨k₂, w⟩
    dsimp only [updateField, List.map_cons]
    by_cases h : k₂ = k
    · subst h
      rw [if_pos rfl]
      simp [List.lookup]
    · rw [if_neg h]
      have hbeq : (k == k₂) = false := by simpa using Ne.symm h
      simp only [List.lookup, hbeq]
      simpa [updateField] using ih

lemma lookup_updateField_ne (form : List (String × String)) {k k₂ : String}
    (v : String) (h : k₂ ≠ k) :
    (updateField form k v).lookup k₂ = form.lookup k₂ := by
  induction form with
  | nil => rfl
  | cons p tail ih =>
    rcases p with ⟨k₃, w⟩
    dsimp only [updateField, List.map_cons]
    by_cases h3 : k₃ = k
    · subst h3
      rw [if_pos rfl]
      have hbeq : (k₂ == k₃) = false := by simpa using h
      simp only [List.lookup, hbeq]
      simpa [updateField] using ih
    · rw [if_neg h3]
      cases hbeq : k₂ == k₃ with
      | true => simp only [List.lookup, hbeq]
      | false =>
        simp only [List.lookup, hbeq]
        simpa [updateField] using ih

lemma isSome_lookup_updateField (form : List (String × String)) (k k₂ v : String) :
    ((updateField form k v).lookup k₂).isSome = (form.lookup k₂).isSome := by
  by_cases h : k₂ = k
  · subst h
    rw [lookup_updateField_self]
    cases form.lookup k₂ <;> rfl
  · rw [lookup_updateField_ne form v h]

/-- C5 counterexample: re-reading the completion-date field after the fill
does not give the bare `MM/DD/YYYY` date: the stored value carries the eight
leading spaces hard-coded in the source f-string. -/
theorem C5_date_field_not_exact :
    (fill_coi_fields [("Form_CompletionDate_A", ""),
        ("CertificateHolder_FullName_A", ""),
        ("CertificateHolder_MailingAddress_LineOne_A", ""),
        ("CertificateHolder_MailingAddress_LineTwo_A", ""),
        ("Other_Field", "x")] ("H", "A1", "A2") 1 15 2026).lookup
        "Form_CompletionDate_A" ≠ some (formatDateMMDDYYYY 1 15 2026)
    ∧ (fill_coi_fields [("Form_CompletionDate_A", ""),
        ("CertificateHolder_FullName_A", ""),
        ("CertificateHolder_MailingAddress_LineOne_A", ""),
        ("CertificateHolder_MailingAddress_LineTwo_A", ""),
        ("Other_Field", "x")] ("H", "A1", "A2") 1 15 2026).lookup
        "Form_CompletionDate_A" = some "        01/15/2026" := by
  decide

lemma lookup_updateField_of_isSome {form : List (String × String)} {k : String}
    (v : String) (h : ((form.lookup k).isSome) = true) :
    (updateField form k v).lookup k = some v := by
  rw [lookup_updateField_self]
  rcases hx : form.lookup k with _ | w
  · rw [hx] at h
    simp at h
  · rfl

/-- C5 (amended): filling then re-reading yields exactly the three supplied
holder values; the completion-date field holds today's `MM/DD/YYYY` date
prefixed by the eight spaces from the source f-string (not the bare date);
and no other field is altered. -/
theorem C5_fill_roundtrip (form : List (String × String))
    (hn ha1 ha2 : String) (m d y : Nat)
    (h1 : ((form.lookup "Form_CompletionDate_A").isSome) = true)
    (h2 : ((form.lookup "CertificateHolder_FullName_A").isSome) = true)
    (h3 : ((form.lookup "CertificateHolder_MailingAddress_LineOne_A").isSome) = true)
    (h4 : ((form.lookup "CertificateHolder_MailingAddress_LineTwo_A").isSome) = true) :
    (fill_coi_fields form (hn, ha1, ha2) m d y).lookup "Form_CompletionDate_A"
        = some (completionDateValue m d y)
    ∧ (fill_coi_fields form (hn, ha1, ha2) m d y).lookup "CertificateHolder_FullName_A"
        = some hn
    ∧ (fill_coi_fields form (hn, ha1, ha2) m d y).lookup
        "CertificateHolder_MailingAddress_LineOne_A" = some ha1
    ∧ (fill_coi_fields form (hn, ha1, ha2) m d y).lookup
        "CertificateHolder_MailingAddress_LineTwo_A" = some ha2
    ∧ (∀ k, k ≠ "Form_CompletionDate_A" → k ≠ "CertificateHolder_FullName_A" →
        k ≠ "CertificateHolder_MailingAddress_LineOne_A" →
        k ≠ "CertificateHolder_MailingAddress_LineTwo_A" →
        (fill_coi_fields form (hn, ha1, ha2) m d y).lookup k = form.lookup k) := by
  unfold fill_coi_fields
  refine ⟨?_, ?_, ?_, ?_, ?_⟩
  · rw [lookup_updateField_ne _ _ (by decide), lookup_updateField_ne _ _ (by decide),
      lookup_updateField_ne _ _ (by decide), lookup_updateField_of_isSome _ h1]
  · rw [lookup_updateField_ne _ _ (by decide), lookup_updateField_ne _ _ (by decide),
      lookup_updateField_of_isSome _ (by rw [isSome_lookup_updateField]; exact h2)]
  · rw [lookup_updateField_ne _ _ (by decide),
      lookup_updateField_of_isSome _
        (by rw [isSome_lookup_updateField, isSome_lookup_updateField]; exact h3)]
  · rw [lookup_updateField_of_isSome _
      (by rw [isSome_lookup_updateField, isSome_lookup_updateField,
        isSome_lookup_updateField]; exact h4)]
  · intro k hk1 hk2 hk3 hk4
    rw [lookup_updateField_ne _ _ hk4, lookup_updateField_ne _ _ hk3,
      lookup_updateField_ne _ _ hk2, lookup_updateField_ne _ _ hk1]

/-- Closed witness for `C5_fill_roundtrip` on a concrete form and date. -/
theorem C5_fill_roundtrip_witness :
    ((([("Form_CompletionDate_A", ""), ("CertificateHolder_FullName_A", ""),
        ("CertificateHolder_MailingAddress_LineOne_A", ""),
        ("CertificateHolder_MailingAddress_LineTwo_A", ""),
        ("Other_Field", "x")] : List (String × String)).lookup
          "Form_CompletionDate_A").isSome) = true
    ∧ (fill_coi_fields [("Form_CompletionDate_A", ""),
        ("CertificateHolder_FullName_A", ""),
        ("CertificateHolder_MailingAddress_LineOne_A", ""),
        ("CertificateHolder_MailingAddress_LineTwo_A", ""),
        ("Other_Field", "x")] ("H", "A1", "A2") 1 15 2026).lookup
        "Form_CompletionDate_A" = some (completionDateValue 1 15 2026)
    ∧ (fill_coi_fields [("Form_CompletionDate_A", ""),
        ("CertificateHolder_FullName_A", ""),
        ("CertificateHolder_MailingAddress_LineOne_A", ""),
        ("CertificateHolder_MailingAddress_LineTwo_A", ""),
        ("Other_Field", "x")] ("H", "A1", "A2") 1 15 2026).lookup
        "CertificateHolder_FullName_A" = some "H" :=
  ⟨by decide,
    (C5_fill_roundtrip [("Form_CompletionDate_A", ""),
        ("CertificateHolder_FullName_A", ""),
        ("CertificateHolder_MailingAddress_LineOne_A", ""),
        ("CertificateHolder_MailingAddress_LineTwo_A", ""),
        ("Other_Field", "x")] "H" "A1" "A2" 1 15 2026
      (by decide) (by decide) (by decide) (by decide)).1,
    (C5_fill_roundtrip [("Form_CompletionDate_A", ""),
        ("CertificateHolder_FullName_A", ""),
        ("CertificateHolder_MailingAddress_LineOne_A", ""),
        ("CertificateHolder_MailingAddress_LineTwo_A", ""),
        ("Other_Field", "x")] "H" "A1" "A2" 1 15 2026
      (by decide) (by decide) (by decide) (by decide)).2.1⟩

/-! ## COI generator: document pipeline (coi_generator/main.py, generate_coi_files)

`generate_coi_files` classifies located files into a main file (first file
whose lowercased name does not contain "additional") and additional files,
fills the main file, signs-and-flattens it, then signs-and-flattens each
additional file.  Internal failures of the fill/flatten helpers are caught
(both inside the helpers and by the surrounding `try`/`except` blocks) and
only change what is logged, so the attempted steps are recorded as events
parametrised by a success oracle. -/

def startsWithChars : List Char → List Char → Bool
  | [], _ => true
  | _ :: _, [] => false
  | c :: cs, d :: ds => c == d && startsWithChars cs ds

def hasSubChars (needle : List Char) : List Char → Bool
  | [] => startsWithChars needle []
  | c :: tl => startsWithChars needle (c :: tl) || hasSubChars needle tl

/-- Python `needle in s` on strings. -/
def containsSub (needle s : String) : Bool := hasSubChars needle.data s.data

/-- Python `s.lower()` (ASCII, as used on the certificate file names). -/
def lowerStr (s : String) : String := ⟨s.data.map Char.toLower⟩

/-- `"additional" in f.lower()`: classifies a located file as an additional
(supplementary) certificate file. -/
def isAdditionalName (f : String) : Bool := containsSub "additional" (lowerStr f)

inductive GenEvent
  | fillMain (file : String)
  | flattenMain (file : String)
  | flattenAddl (file : String)
deriving DecidableEq, Repr

structure GenOut where
  events : List GenEvent
  logs : List (String × String)
  result : List String
deriving DecidableEq, Repr

/-- Embedding of `generate_coi_files` given the file names returned by the
Drive search (`download_from_drive`); `fillOk` and `flatOk` are the success
oracles of the fill and sign-and-flatten helpers (whose internal failures are
caught and logged, never raised). -/
def generate_coi_files (fillOk : Bool) (flatOk : String → Bool)
    (fileNames : List String) : GenOut :=
  if fileNames.isEmpty then
    { events := [], logs := [("no_files_found", "error")], result := [] }
  else
    match fileNames.find? (fun f => !(isAdditionalName f)) with
    | none => { events := [], logs := [], result := fileNames }
    | some mainFile =>
      { events := GenEvent.fillMain mainFile :: GenEvent.flattenMain mainFile ::
          (fileNames.filter (fun f => isAdditionalName f)).map GenEvent.flattenAddl
      , logs :=
          (if fillOk then [("coi_fill_finished", "ok")]
           else [("coi_fill_failed", "error")])
          ++ [("signature_flatten_finished", "ok")]
          ++ (fileNames.filter (fun f => isAdditionalName f)).map
              (fun f => if flatOk f then
                  ("additional_signature_flatten_finished", "ok")
                else ("additional_signature_flatten_failed", "error"))
      , result := fileNames }

/-- C6 counterexample: when every located file carries the "additional"
marker there is no main file, and the whole `if main_file:` block — including
the additional-files loop — is skipped: the additional file is never
signed-and-flattened, so additional files are not processed independently of
the main file. -/
theorem C6_no_main_skips_additional :
    isAdditionalName "acme additional remarks.pdf" = true
    ∧ (generate_coi_files true (fun _ => true)
        ["acme additional remarks.pdf"]).events = [] := by
  decide

/-- C6 (amended): when a main file is located, the attempted pipeline steps
do not depend on the fill/flatten success oracles: the sign-and-flatten of
the main file is attempted whatever the fill outcome, and every located
additional file is sign-and-flattened whatever the other outcomes; but when
no main file is located, additional files are skipped entirely. -/
theorem C6_pipeline_failure_isolation (fillOk fillOk₂ : Bool)
    (flatOk flatOk₂ : String → Bool) (fileNames : List String) (mainFile : String)
    (hmain : fileNames.find? (fun f => !(isAdditionalName f)) = some mainFile) :
    ((generate_coi_files fillOk flatOk fileNames).events
        = (generate_coi_files fillOk₂ flatOk₂ fileNames).events)
    ∧ GenEvent.flattenMain mainFile ∈ (generate_coi_files fillOk flatOk fileNames).events
    ∧ (∀ f ∈ fileNames, isAdditionalName f = true →
        GenEvent.flattenAddl f ∈ (generate_coi_files fillOk flatOk fileNames).events) := by
  have hne : fileNames.isEmpty = false := by
    cases fileNames with
    | nil => simp at hmain
    | cons a l => rfl
  have hgen : ∀ fo flo, generate_coi_files fo flo fileNames =
      { events := GenEvent.fillMain mainFile :: GenEvent.flattenMain mainFile ::
          (fileNames.filter (fun f => isAdditionalName f)).map GenEvent.flattenAddl
      , logs :=
          (if fo then [("coi_fill_finished", "ok")]
           else [("coi_fill_failed", "error")])
          ++ [("signature_flatten_finished", "ok")]
          ++ (fileNames.filter (fun f => isAdditionalName f)).map
              (fun f => if flo f then
                  ("additional_signature_flatten_finished", "ok")
                else ("additional_signature_flatten_failed", "error"))
      , result := fileNames } := by
    intro fo flo
    unfold generate_coi_files
    rw [hne, if_neg (by decide), hmain]
  refine ⟨by rw [hgen fillOk flatOk, hgen fillOk₂ flatOk₂], ?_, ?_⟩
  · rw [hgen fillOk flatOk]
    exact List.mem_cons_of_mem _ (List.mem_cons_self _ _)
  · intro f hf hadd
    rw [hgen fillOk flatOk]
    refine List.mem_cons_of_mem _ (List.mem_cons_of_mem _ ?_)
    exact List.mem_map_of_mem _ (List.mem_filter.mpr ⟨hf, hadd⟩)

/-- Closed witness for `C6_pipeline_failure_isolation`: a failing fill and a
failing additional flatten still attempt every step. -/
theorem C6_pipeline_failure_isolation_witness :
    (["acme.pdf", "acme additional.pdf"].find?
        (fun f => !(isAdditionalName f)) = some "acme.pdf")
    ∧ (((generate_coi_files false (fun _ => false)
          ["acme.pdf", "acme additional.pdf"]).events
        = (generate_coi_files true (fun _ => true)
          ["acme.pdf", "acme additional.pdf"]).events)
      ∧ GenEvent.flattenMain "acme.pdf"
          ∈ (generate_coi_files false (fun _ => false)
              ["acme.pdf", "acme additional.pdf"]).events
      ∧ (∀ f ∈ ["acme.pdf", "acme additional.pdf"], isAdditionalName f = true →
          GenEvent.flattenAddl f
            ∈ (generate_coi_files false (fun _ => false)
                ["acme.pdf", "acme additional.pdf"]).events)) :=
  ⟨by decide,
    C6_pipeline_failure_isolation false true (fun _ => false) (fun _ => true)
      ["acme.pdf", "acme additional.pdf"] "acme.pdf" (by decide)⟩

/-! ## COI generator: classifier/extractor response handling
(coi_generator/main.py, is_coi_request / infer_coi_request_info /
analyze_for_coi_request)

The LLM response string either fails `json.loads` or parses into a JSON
object (a list of key/value pairs).  Both helpers probe their required key
inside `try`: on failure an error document keyed by timestamp and subject is
written to the `coi_generator_errors` collection with the raw response, and a
default value is returned (`{"is_likely_coi_request": False}` respectively
`{}`); no exception reaches the caller. -/

inductive PyVal
  | pyBool (b : Bool)
  | pyStr (s : String)
  | pyList (l : List String)
deriving DecidableEq, Repr

/-- Python truthiness of a JSON value. -/
def pyTruthy : PyVal → Bool
  | .pyBool b => b
  | .pyStr s => !(s == "")
  | .pyList l => !(l.isEmpty)

inductive LLMResponseParse
  | notJson (raw : String)
  | json (fields : List (String × PyVal)) (raw : String)
deriving DecidableEq, Repr

structure ErrorRecord where
  docId : String
  subject : String
  content : String
  llmResponse : String
  timestamp : String
deriving DecidableEq, Repr

/-- Python `subject.replace(' ', '_')`. -/
def replaceSpaces (s : String) : String :=
  ⟨s.data.map (fun c => if c = ' ' then '_' else c)⟩

/-- The error-collection document id
`f"{timestamp}_{subject.replace(' ', '_')}"`. -/
def errorDocId (ts subject : String) : String := ts ++ "_" ++ replaceSpaces subject

def errorRecordOf (ts subject content raw : String) : ErrorRecord :=
  ⟨errorDocId ts subject, subject, content, raw, ts⟩

def falseVerdict : List (String × PyVal) :=
  [("is_likely_coi_request", PyVal.pyBool false)]

/-- Embedding of `is_coi_request` response handling: parse, probe the
`is_likely_coi_request` key; on parse failure or missing key write an error
record and return the literal false verdict, otherwise return the parsed
object. -/
def is_coi_request (errs : List ErrorRecord) (subject content ts : String)
    (resp : LLMResponseParse) : List (String × PyVal) × List ErrorRecord :=
  match resp with
  | .notJson raw => (falseVerdict, errs ++ [errorRecordOf ts subject content raw])
  | .json fields raw =>
    match fields.lookup "is_likely_coi_request" with
    | none => (falseVerdict, errs ++ [errorRecordOf ts subject content raw])
    | some _ => (fields, errs)

/-- Embedding of `infer_coi_request_info` response handling: parse, probe the
`insured_name` key; on parse failure or missing key write an error record and
return the empty object, otherwise return the parsed object. -/
def infer_coi_request_info (errs : List ErrorRecord) (subject content ts : String)
    (resp : LLMResponseParse) : List (String × PyVal) × List ErrorRecord :=
  match resp with
  | .notJson raw => ([], errs ++ [errorRecordOf ts subject content raw])
  | .json fields raw =>
    match fields.lookup "insured_name" with
    | none => ([], errs ++ [errorRecordOf ts subject content raw])
    | some _ => (fields, errs)

/-- Python `inferred_data.get(k)` used as a condition. -/
def getTruthy (d : List (String × PyVal)) (k : String) : Bool :=
  match d.lookup k with
  | none => false
  | some v => pyTruthy v

structure AnalyzeOut where
  pipeline : GenOut
  draftAttempted : Bool
  errs : List ErrorRecord
deriving DecidableEq, Repr

/-- Embedding of `analyze_for_coi_request`: classify; when the verdict is
truthy, extract; when all four required fields are truthy, run the document
pipeline on the files located for the insured and attempt the reply draft
when files were produced.  `none` models an uncaught exception (the verdict
key missing — unreachable, since `is_coi_request` always supplies it). -/
def analyze_for_coi_request (errs : List ErrorRecord) (subject content ts : String)
    (classifyResp inferResp : LLMResponseParse) (filesFound : List String)
    (fillOk : Bool) (flatOk : String → Bool) : Option AnalyzeOut :=
  match is_coi_request errs subject content ts classifyResp with
  | (verdict, errs1) =>
    match verdict.lookup "is_likely_coi_request" with
    | none => none
    | some v =>
      if pyTruthy v then
        match infer_coi_request_info errs1 subject content ts inferResp with
        | (inferred, errs2) =>
          if getTruthy inferred "insured_name" && getTruthy inferred "holder_name"
              && getTruthy inferred "holder_addr_1"
              && getTruthy inferred "holder_addr_2" then
            match generate_coi_files fillOk flatOk filesFound with
            | out =>
              if out.result.isEmpty then some ⟨out, false, errs2⟩
              else some ⟨out, true, errs2⟩
          else some ⟨⟨[], [], []⟩, false, errs2⟩
      else some ⟨⟨[], [], []⟩, false, errs1⟩

/-- C10: whatever the classification LLM returns, `is_coi_request` returns an
object containing the `is_likely_coi_request` key, and on any parse or
missing-key failure it returns exactly `{"is_likely_coi_request": False}` —
so the caller's access to that key never fails. -/
theorem C10_verdict_always_has_key (errs : List ErrorRecord)
    (subject content ts : String) (resp : LLMResponseParse) :
    ((((is_coi_request errs subject content ts resp).1).lookup
        "is_likely_coi_request").isSome) = true
    ∧ (∀ raw, resp = LLMResponseParse.notJson raw →
        (is_coi_request errs subject content ts resp).1 = falseVerdict)
    ∧ (∀ fields raw, resp = LLMResponseParse.json fields raw →
        fields.lookup "is_likely_coi_request" = none →
        (is_coi_request errs subject content ts resp).1 = falseVerdict) := by
  rcases resp with raw | ⟨fields, raw⟩
  · exact ⟨rfl, fun _ _ => rfl, fun _ _ h => by simp at h⟩
  · rcases hlook : fields.lookup "is_likely_coi_request" with _ | v
    · refine ⟨?_, fun _ h => by simp at h, fun fields₂ raw₂ h hnone => ?_⟩
      · show (((is_coi_request errs subject content ts
            (LLMResponseParse.json fields raw)).1).lookup
            "is_likely_coi_request").isSome = true
        unfold is_coi_request
        dsimp only
        rw [hlook]
        rfl
      · obtain ⟨rfl, rfl⟩ : fields = fields₂ ∧ raw = raw₂ := by
          constructor <;> [exact congrArg (fun x => match x with
            | LLMResponseParse.json f _ => f
            | _ => fields) h;
            exact congrArg (fun x => match x with
            | LLMResponseParse.json _ r => r
            | _ => raw) h]
        unfold is_coi_request
        dsimp only
        rw [hlook]
    · refine ⟨?_, fun _ h => by simp at h, fun fields₂ raw₂ h hnone => ?_⟩
      · show (((is_coi_request errs subject content ts
            (LLMResponseParse.json fields raw)).1).lookup
            "is_likely_coi_request").isSome = true
        unfold is_coi_request
        dsimp only
        rw [hlook]
        dsimp only
        rw [hlook]
        rfl
      · obtain ⟨rfl, rfl⟩ : fields = fields₂ ∧ raw = raw₂ := by
          constructor <;> [exact congrArg (fun x => match x with
            | LLMResponseParse.json f _ => f
            | _ => fields) h;
            exact congrArg (fun x => match x with
            | LLMResponseParse.json _ r => r
            | _ => raw) h]
        rw [hlook] at hnone
        simp at hnone

/-- Closed witness for `C10_verdict_always_has_key` on a non-JSON response. -/
theorem C10_verdict_always_has_key_witness :
    ((((is_coi_request [] "s" "c" "ts" (LLMResponseParse.notJson "oops")).1).lookup
        "is_likely_coi_request").isSome) = true
    ∧ (is_coi_request [] "s" "c" "ts" (LLMResponseParse.notJson "oops")).1
        = falseVerdict :=
  ⟨(C10_verdict_always_has_key [] "s" "c" "ts" (LLMResponseParse.notJson "oops")).1,
    (C10_verdict_always_has_key [] "s" "c" "ts"
      (LLMResponseParse.notJson "oops")).2.1 "oops" rfl⟩

/-- C7: on a classifier/extractor response that fails to parse or misses the
required key, exactly one error record holding the raw response (keyed by
timestamp and subject) is appended to the error collection, classification
returns the literal false verdict, extraction returns the empty object,
`analyze_for_coi_request` performs no generation and no draft (so no approval
path is triggered), and — downstream — a negative classification makes
`handle_email` return without notifying the approval channel. -/
theorem C7_malformed_response_no_action (errs : List ErrorRecord)
    (subject content ts raw : String) (fields : List (String × PyVal))
    (inferResp : LLMResponseParse) (filesFound : List String)
    (fillOk : Bool) (flatOk : String → Bool) :
    (is_coi_request errs subject content ts (LLMResponseParse.notJson raw)
        = (falseVerdict, errs ++ [errorRecordOf ts subject content raw]))
    ∧ (fields.lookup "is_likely_coi_request" = none →
        is_coi_request errs subject content ts (LLMResponseParse.json fields raw)
          = (falseVerdict, errs ++ [errorRecordOf ts subject content raw]))
    ∧ (infer_coi_request_info errs subject content ts (LLMResponseParse.notJson raw)
        = ([], errs ++ [errorRecordOf ts subject content raw]))
    ∧ (fields.lookup "insured_name" = none →
        infer_coi_request_info errs subject content ts
            (LLMResponseParse.json fields raw)
          = ([], errs ++ [errorRecordOf ts subject content raw]))
    ∧ (analyze_for_coi_request errs subject content ts
          (LLMResponseParse.notJson raw) inferResp filesFound fillOk flatOk
        = some ⟨⟨[], [], []⟩, false, errs ++ [errorRecordOf ts subject content raw]⟩)
    ∧ (fields.lookup "is_likely_coi_request" = none →
        analyze_for_coi_request errs subject content ts
            (LLMResponseParse.json fields raw) inferResp filesFound fillOk flatOk
          = some ⟨⟨[], [], []⟩, false, errs ++ [errorRecordOf ts subject content raw]⟩)
    ∧ (∀ env : WatcherEnv, ∀ a, env.classify = CallOutcome.ok a →
        a.isLikely = some false → (handle_email env).1 = HandleOutcome.done false) := by
  refine ⟨rfl, ?_, rfl, ?_, rfl, ?_, ?_⟩
  · intro h
    unfold is_coi_request
    dsimp only
    rw [h]
  · intro h
    unfold infer_coi_request_info
    dsimp only
    rw [h]
  · intro h
    unfold analyze_for_coi_request is_coi_request
    dsimp only
    rw [h]
    rfl
  · intro env a hc hl
    rcases env with ⟨c, tOk⟩
    dsimp only at hc
    subst hc
    unfold handle_email
    dsimp only
    rw [hl]

/-- Closed witness for `C7_malformed_response_no_action`: a JSON response
missing the required key yields the false verdict plus one error record, and
a negative classification leads to no approval notification. -/
theorem C7_malformed_response_no_action_witness :
    (is_coi_request [] "s" "c" "ts"
        (LLMResponseParse.json [("x", PyVal.pyStr "y")] "raw")
      = (falseVerdict, [errorRecordOf "ts" "s" "c" "raw"]))
    ∧ (handle_email ⟨CallOutcome.ok ⟨some false, none⟩, true⟩).1
        = HandleOutcome.done false :=
  ⟨(C7_malformed_response_no_action [] "s" "c" "ts" "raw"
      [("x", PyVal.pyStr "y")] (LLMResponseParse.notJson "z") [] true
      (fun _ => true)).2.1 (by decide),
    (C7_malformed_response_no_action [] "s" "c" "ts" "raw"
      [("x", PyVal.pyStr "y")] (LLMResponseParse.notJson "z") [] true
      (fun _ => true)).2.2.2.2.2.2 ⟨CallOutcome.ok ⟨some false, none⟩, true⟩
      ⟨some false, none⟩ rfl rfl⟩

/-! ## Delivery recipient normalization (spec sections 4.6 and 8)

The normalization routine described by the spec for Delivery is not present
in the sources under src/ — `create_draft_coi_reply` only consumes the
recipient lists — so it is modelled here from the spec's words. -/

def wsChar (c : Char) : Bool := c.isWhitespace

/-- Modelled from the spec: the whitespace trimming used by recipient
normalization (the routine itself is missing from src/): drop leading and
trailing whitespace characters. -/
def trimChars (cs : List Char) : List Char :=
  ((cs.dropWhile wsChar).reverse.dropWhile wsChar).reverse

/-- The characters after the first angle-open bracket, when one occurs. -/
def afterLt : List Char → Option (List Char)
  | [] => none
  | c :: cs => if c = '<' then some cs else afterLt cs

/-- The characters before the first angle-close bracket, when one occurs. -/
def upToGt : List Char → Option (List Char)
  | [] => none
  | c :: cs => if c = '>' then some [] else (upToGt cs).map (fun r => c :: r)

/-- Modelled from the spec: strips the display-name wrapping of a
`Name <addr>` recipient form (missing from src/): when the string contains a
bracketed part, keep what stands between the first angle-open bracket and the
following angle-close bracket, otherwise keep the string. -/
def stripDisplayName (s : String) : String :=
  match (afterLt s.data).bind upToGt with
  | some addr => ⟨addr⟩
  | none => s

/-- Modelled from the spec: per-address normalization (missing from src/):
strip the display-name wrapping, then trim whitespace. -/
def normalizeAddr (s : String) : String := ⟨trimChars (stripDisplayName s).data⟩

/-- Modelled from the spec: case-insensitive de-duplication keeping the first
occurrence's casing and first-seen order (missing from src/). -/
def dedupCI : List String → List String → List String
  | _, [] => []
  | seen, x :: xs =>
    if lowerStr x ∈ seen then dedupCI seen xs
    else x :: dedupCI (lowerStr x :: seen) xs

/-- Modelled from the spec: recipient-list normalization in Delivery
(missing from src/): normalize each address, then de-duplicate
case-insensitively preserving first-seen order. -/
def normalize (l : List String) : List String := dedupCI [] (l.map normalizeAddr)

lemma dropWhile_self_eq (p : Char → Bool) (l : List Char) :
    (l.dropWhile p).dropWhile p = l.dropWhile p := by
  induction l with
  | nil => rfl
  | cons c cs ih =>
    rw [List.dropWhile_cons]
    by_cases hp : p c = true
    · rw [if_pos hp]
      exact ih
    · rw [if_neg hp, List.dropWhile_cons, if_neg hp]

lemma dropWhile_append_self {p : Char → Bool} {x y : List Char}
    (h : (x ++ y).dropWhile p = x ++ y) : x.dropWhile p = x := by
  cases x with
  | nil => rfl
  | cons c cs =>
    rw [List.cons_append, List.dropWhile_cons] at h
    by_cases hp : p c = true
    · rw [if_pos hp] at h
      have hle := (List.dropWhile_sublist (l := cs ++ y) p).length_le
      have hlen := congrArg List.length h
      rw [List.length_cons] at hlen
      omega
    · rw [List.dropWhile_cons, if_neg hp]

lemma dropWhile_revdrop {p : Char → Bool} {l : List Char}
    (hl : l.dropWhile p = l) :
    ((l.reverse.dropWhile p).reverse).dropWhile p
      = (l.reverse.dropWhile p).reverse := by
  obtain ⟨t, ht⟩ := List.dropWhile_suffix (l := l.reverse) p
  have hl2 : l = (l.reverse.dropWhile p).reverse ++ t.reverse := by
    have h2 := congrArg List.reverse ht
    rw [List.reverse_append, List.reverse_reverse] at h2
    exact h2.symm
  exact dropWhile_append_self (y := t.reverse) (by rw [← hl2]; exact hl)

lemma trimChars_idem (cs : List Char) : trimChars (trimChars cs) = trimChars cs := by
  unfold trimChars
  have hb := dropWhile_revdrop (dropWhile_self_eq wsChar cs)
  rw [hb, List.reverse_reverse, dropWhile_self_eq]

lemma mem_trimChars {c : Char} {l : List Char} (h : c ∈ trimChars l) : c ∈ l := by
  unfold trimChars at h
  have h1 := List.mem_reverse.mp h
  have h2 := (List.dropWhile_sublist wsChar).subset h1
  have h3 := List.mem_reverse.mp h2
  exact (List.dropWhile_sublist wsChar).subset h3

lemma upToGt_some_no_gt : ∀ {cs r : List Char}, upToGt cs = some r → '>' ∉ r := by
  intro cs
  induction cs with
  | nil => intro r h; simp [upToGt] at h
  | cons c cs ih =>
    intro r h
    unfold upToGt at h
    by_cases hc : c = '>'
    · rw [if_pos hc] at h
      obtain rfl : ([] : List Char) = r := by simpa using h
      simp
    · rw [if_neg hc] at h
      obtain ⟨r₂, hr₂, rfl⟩ := Option.map_eq_some'.mp h
      intro hmem
      rcases List.mem_cons.mp hmem with heq | hmem₂
      · exact hc heq.symm
      · exact ih hr₂ hmem₂

lemma upToGt_eq_none_iff (cs : List Char) : upToGt cs = none ↔ '>' ∉ cs := by
  induction cs with
  | nil => simp [upToGt]
  | cons c cs ih =>
    unfold upToGt
    by_cases hc : c = '>'
    · subst hc
      simp
    · rw [if_neg hc]
      rw [Option.map_eq_none', ih]
      constructor
      · intro hni hmem
        rcases List.mem_cons.mp hmem with heq | hm
        · exact hc heq.symm
        · exact hni hm
      · intro hni hm
        exact hni (List.mem_cons_of_mem _ hm)

lemma afterLt_eq_none_iff (cs : List Char) : afterLt cs = none ↔ '<' ∉ cs := by
  induction cs with
  | nil => simp [afterLt]
  | cons c cs ih =>
    unfold afterLt
    by_cases hc : c = '<'
    · subst hc
      simp
    · rw [if_neg hc, ih]
      constructor
      · intro hni hmem
        rcases List.mem_cons.mp hmem with heq | hm
        · exact hc heq.symm
        · exact hni hm
      · intro hni hm
        exact hni (List.mem_cons_of_mem _ hm)

lemma afterLt_mem_subset : ∀ {cs tl : List Char}, afterLt cs = some tl →
    ∀ c ∈ tl, c ∈ cs := by
  intro cs
  induction cs with
  | nil => intro tl h; simp [afterLt] at h
  | cons d cs ih =>
    intro tl h c hc
    unfold afterLt at h
    by_cases hd : d = '<'
    · rw [if_pos hd] at h
      obtain rfl : cs = tl := by simpa using h
      exact List.mem_cons_of_mem _ hc
    · rw [if_neg hd] at h
      exact List.mem_cons_of_mem _ (ih h c hc)

lemma afterLt_decomp : ∀ {cs tl : List Char}, afterLt cs = some tl →
    ∃ u, cs = u ++ '<' :: tl := by
  intro cs
  induction cs with
  | nil => intro tl h; simp [afterLt] at h
  | cons c cs ih =>
    intro tl h
    unfold afterLt at h
    by_cases hc : c = '<'
    · rw [if_pos hc] at h
      obtain rfl : cs = tl := by simpa using h
      exact ⟨[], by rw [hc]; rfl⟩
    · rw [if_neg hc] at h
      obtain ⟨u, hu⟩ := ih h
      exact ⟨c :: u, by rw [hu]; rfl⟩

lemma afterLt_append_suffix : ∀ (u v tl : List Char),
    afterLt (u ++ '<' :: v) = some tl → v <:+ tl := by
  intro u
  induction u with
  | nil =>
    intro v tl h
    rw [List.nil_append] at h
    unfold afterLt at h
    rw [if_pos rfl] at h
    obtain rfl : v = tl := by simpa using h
    exact List.suffix_refl v
  | cons c u ih =>
    intro v tl h
    rw [List.cons_append] at h
    unfold afterLt at h
    by_cases hc : c = '<'
    · rw [if_pos hc] at h
      obtain rfl : u ++ '<' :: v = tl := by simpa using h
      exact ⟨u ++ ['<'], by simp⟩
    · rw [if_neg hc] at h
      exact ih v tl h

lemma pattern_of_decomp {cs u v : List Char} (hcs : cs = u ++ '<' :: v)
    (hgt : '>' ∈ v) : (afterLt cs).bind upToGt ≠ none := by
  subst hcs
  have hlt : '<' ∈ u ++ '<' :: v := by simp
  rcases hA : afterLt (u ++ '<' :: v) with _ | tl
  · exact absurd ((afterLt_eq_none_iff _).mp hA) (by simp)
  · have hsuf := afterLt_append_suffix u v tl hA
    obtain ⟨w, hw⟩ := hsuf
    have hgt2 : '>' ∈ tl := by
      rw [← hw]
      exact List.mem_append_right _ hgt
    intro hnone
    have : upToGt tl = none := hnone
    exact absurd hgt2 ((upToGt_eq_none_iff tl).mp this)

lemma trim_decomp (cs : List Char) : ∃ u₁ u₂, cs = u₁ ++ trimChars cs ++ u₂ := by
  refine ⟨cs.takeWhile wsChar,
    ((cs.dropWhile wsChar).reverse.takeWhile wsChar).reverse, ?_⟩
  unfold trimChars
  have key : ((cs.dropWhile wsChar).reverse.dropWhile wsChar).reverse
      ++ ((cs.dropWhile wsChar).reverse.takeWhile wsChar).reverse
      = cs.dropWhile wsChar := by
    rw [← List.reverse_append, List.takeWhile_append_dropWhile, List.reverse_reverse]
  rw [List.append_assoc, key, List.takeWhile_append_dropWhile]

lemma normalizeAddr_idem (s : String) :
    normalizeAddr (normalizeAddr s) = normalizeAddr s := by
  have main : ∀ t : List Char, (afterLt (trimChars t)).bind upToGt = none →
      normalizeAddr ⟨trimChars t⟩ = ⟨trimChars t⟩ := by
    intro t h2
    have hstrip2 : stripDisplayName ⟨trimChars t⟩ = ⟨trimChars t⟩ := by
      unfold stripDisplayName
      dsimp only
      rw [h2]
    unfold normalizeAddr
    rw [hstrip2]
    dsimp only
    rw [trimChars_idem]
  rcases hp : (afterLt s.data).bind upToGt with _ | addr
  · have hs : stripDisplayName s = s := by
      unfold stripDisplayName
      rw [hp]
    have hx : normalizeAddr s = ⟨trimChars s.data⟩ := by
      unfold normalizeAddr
      rw [hs]
    rw [hx]
    refine main s.data ?_
    rcases hA : afterLt (trimChars s.data) with _ | tl
    · rfl
    · rcases hU : upToGt tl with _ | addr₂
      · show (upToGt tl) = none
        exact hU
      · exfalso
        obtain ⟨u, hu⟩ := afterLt_decomp hA
        have hgt : '>' ∈ tl := by
          by_contra hng
          rw [(upToGt_eq_none_iff tl).mpr hng] at hU
          simp at hU
        obtain ⟨u₁, u₂, hdec⟩ := trim_decomp s.data
        have hcs : s.data = (u₁ ++ u) ++ '<' :: (tl ++ u₂) := by
          rw [hdec, hu]
          simp
        exact pattern_of_decomp hcs (List.mem_append_left _ hgt) hp
  · have hs : stripDisplayName s = ⟨addr⟩ := by
      unfold stripDisplayName
      rw [hp]
    have hng : '>' ∉ addr := by
      rcases hA : afterLt s.data with _ | tl
      · rw [hA] at hp
        simp at hp
      · rw [hA] at hp
        exact upToGt_some_no_gt hp
    have hx : normalizeAddr s = ⟨trimChars addr⟩ := by
      unfold normalizeAddr
      rw [hs]
    rw [hx]
    refine main addr ?_
    rcases hA : afterLt (trimChars addr) with _ | tl
    · rfl
    · show (upToGt tl) = none
      refine (upToGt_eq_none_iff tl).mpr ?_
      intro hmem
      exact (fun h => hng (mem_trimChars h)) (afterLt_mem_subset hA _ hmem)

lemma dedupCI_cons_mem {seen : List String} {x : String} (xs : List String)
    (h : lowerStr x ∈ seen) : dedupCI seen (x :: xs) = dedupCI seen xs := by
  simp only [dedupCI]
  rw [if_pos h]

lemma dedupCI_cons_not_mem {seen : List String} {x : String} (xs : List String)
    (h : lowerStr x ∉ seen) :
    dedupCI seen (x :: xs) = x :: dedupCI (lowerStr x :: seen) xs := by
  simp only [dedupCI]
  rw [if_neg h]

lemma dedupCI_sublist : ∀ (xs seen : List String), (dedupCI seen xs).Sublist xs := by
  intro xs
  induction xs with
  | nil => intro seen; exact List.nil_sublist []
  | cons x xs ih =>
    intro seen
    by_cases h : lowerStr x ∈ seen
    · rw [dedupCI_cons_mem xs h]
      exact (ih seen).trans (List.sublist_cons_self x xs)
    · rw [dedupCI_cons_not_mem xs h]
      exact List.Sublist.cons₂ x (ih _)

lemma dedupCI_clean : ∀ (xs seen : List String),
    ((dedupCI seen xs).map lowerStr).Nodup
    ∧ ∀ y ∈ dedupCI seen xs, lowerStr y ∉ seen := by
  intro xs
  induction xs with
  | nil =>
    intro seen
    exact ⟨List.nodup_nil, fun y hy => absurd hy (List.not_mem_nil y)⟩
  | cons x xs ih =>
    intro seen
    by_cases h : lowerStr x ∈ seen
    · rw [dedupCI_cons_mem xs h]
      exact ih seen
    · rw [dedupCI_cons_not_mem xs h]
      refine ⟨?_, ?_⟩
      · rw [List.map_cons]
        refine List.nodup_cons.mpr ⟨?_, (ih _).1⟩
        intro hmem
        obtain ⟨y, hy, hyx⟩ := List.mem_map.mp hmem
        exact (ih _).2 y hy (by rw [hyx]; exact List.mem_cons_self _ _)
      · intro y hy
        rcases List.mem_cons.mp hy with rfl | hy₂
        · exact h
        · exact fun hseen => (ih _).2 y hy₂ (List.mem_cons_of_mem _ hseen)

lemma dedupCI_of_clean : ∀ (xs seen : List String),
    ((xs.map lowerStr).Nodup) → (∀ y ∈ xs, lowerStr y ∉ seen) →
    dedupCI seen xs = xs := by
  intro xs
  induction xs with
  | nil => intro seen _ _; rfl
  | cons x xs ih =>
    intro seen hnd hni
    have hx : lowerStr x ∉ seen := hni x (List.mem_cons_self _ _)
    rw [dedupCI_cons_not_mem xs hx]
    congr 1
    have hnd₂ : (∀ y ∈ xs, ¬ lowerStr y = lowerStr x) ∧ ((xs.map lowerStr).Nodup) := by
      simpa using hnd
    refine ih _ hnd₂.2 ?_
    intro y hy hmem
    rcases List.mem_cons.mp hmem with heq | hseen
    · exact hnd₂.1 y hy heq
    · exact hni y (List.mem_cons_of_mem _ hy) hseen

/-- C9 (spec-modelled): recipient normalization strips display-name wrapping
and trims whitespace, de-duplicates case-insensitively while preserving the
first occurrence's casing and first-seen order (the result is a sublist of
the per-address-normalized input with pairwise-distinct lowercasings), and is
idempotent: `normalize (normalize L) = normalize L`. -/
theorem C9_normalize_idempotent (L : List String) :
    normalize (normalize L) = normalize L
    ∧ (normalize L).Sublist (L.map normalizeAddr)
    ∧ ((normalize L).map lowerStr).Nodup
    ∧ normalizeAddr " John Doe <a@b.c> " = "a@b.c" := by
  have hsub : (normalize L).Sublist (L.map normalizeAddr) :=
    dedupCI_sublist (L.map normalizeAddr) []
  have hnd := (dedupCI_clean (L.map normalizeAddr) []).1
  have hfix : ∀ y ∈ normalize L, normalizeAddr y = y := by
    intro y hy
    obtain ⟨z, _, rfl⟩ := List.mem_map.mp (hsub.subset hy)
    exact normalizeAddr_idem z
  have hmap : (normalize L).map normalizeAddr = normalize L := by
    calc (normalize L).map normalizeAddr
        = (normalize L).map id := List.map_congr_left hfix
      _ = normalize L := List.map_id _
  refine ⟨?_, hsub, hnd, by decide⟩
  have hdef : normalize (normalize L)
      = dedupCI [] ((normalize L).map normalizeAddr) := rfl
  rw [hdef, hmap]
  exact dedupCI_of_clean (normalize L) [] hnd (fun y _ => List.not_mem_nil _)

end LionBot
